import Mathlib

/-!
# Aliyun SMS provider: request signing and response handling

A shallow embedding of `internal/api/sms_provider/aliyun.go` together with the
parts of the Go standard library it calls (`net/url.QueryEscape`,
`sort.Strings`, `strings.Join`, `crypto/sha1`, `crypto/hmac`,
`encoding/base64`), followed by theorems about `generateSignature`,
`SendSms`, `SendMessage` and `VerifyOTP`.

Go strings are immutable byte sequences, so a string is a list of bytes
(`Fin 256`).  A Go `map[string]string` is presented by an enumeration of its
entries (a list of key/value pairs whose keys are pairwise distinct); the
iteration order of a Go map is unspecified, which is why theorems that depend
on the order quantify over the enumeration.
-/

namespace Aliyun

/-! ## Go strings -/

/-- A Go `string`: a finite sequence of bytes. -/
abbrev Str := List (Fin 256)

/-- The byte with value `n % 256`. -/
def byteOfNat (n : Nat) : Fin 256 := ⟨n % 256, Nat.mod_lt _ (by decide)⟩

/-- UTF-8 bytes of one character (Go source literals are UTF-8). -/
def utf8 (c : Char) : Str := (String.utf8EncodeChar c).map (fun b => byteOfNat b.toNat)

/-- The Go string denoted by a source literal. -/
def str (s : String) : Str := s.toList.flatMap utf8

/-- Go's `<` on strings: byte-wise lexicographic, a proper prefix is smaller. -/
def strLess : Str → Str → Bool
  | [], [] => false
  | [], _ :: _ => true
  | _ :: _, [] => false
  | a :: as, b :: bs => if a < b then true else if b < a then false else strLess as bs

/-- Go's `<=` on strings, i.e. `!(b < a)`. -/
def StrLe (a b : Str) : Prop := strLess b a = false

instance : DecidableRel StrLe := fun a b => inferInstanceAs (Decidable (strLess b a = false))

/-- `sort.Strings`: the ascending rearrangement of the slice.  The order is
total and antisymmetric, so every correct sorting algorithm returns this list
(`sortStrings_unique`). -/
def sortStrings (l : List Str) : List Str := l.insertionSort StrLe

/-- `strings.Join(elems, sep)`. -/
def join (sep : Str) : List Str → Str
  | [] => []
  | [x] => x
  | x :: y :: rest => x ++ sep ++ join sep (y :: rest)

/-! ## `net/url.QueryEscape` -/

/-- `upperhex` of `net/url`. -/
def upperhex : Str := str "0123456789ABCDEF"

/-- `upperhex[i]`. -/
def hexDigit (i : Nat) : Fin 256 := upperhex.getD i 0

/-- The alphanumeric test opening `shouldEscape`. -/
def isAlnum (c : Fin 256) : Bool :=
  (97 ≤ c.val && c.val ≤ 122) || (65 ≤ c.val && c.val ≤ 90) || (48 ≤ c.val && c.val ≤ 57)

/-- `shouldEscape(c, encodeQueryComponent)`: alphanumerics and `-`, `_`, `.`,
`~` are kept; the reserved characters `$&+,/:;=?@` and everything else are
escaped. -/
def shouldEscape (c : Fin 256) : Bool :=
  if isAlnum c then false
  else if c = 45 ∨ c = 95 ∨ c = 46 ∨ c = 126 then false
  else if c = 36 ∨ c = 38 ∨ c = 43 ∨ c = 44 ∨ c = 47 ∨ c = 58 ∨ c = 59 ∨ c = 61 ∨ c = 63
      ∨ c = 64 then true
  else true

/-- What the output loop of `escape(s, encodeQueryComponent)` writes for one
input byte: `+` for a space, `%XX` for a byte to escape, the byte otherwise. -/
def escapeByte (c : Fin 256) : Str :=
  if c = 32 then [43]
  else if shouldEscape c then [37, hexDigit (c.val >>> 4), hexDigit (c.val &&& 15)]
  else [c]

/-- `url.QueryEscape(s)`. -/
def QueryEscape (s : Str) : Str := s.flatMap escapeByte

/-! ## `crypto/sha1`, `crypto/hmac`, `encoding/base64` -/

/-- `bits.RotateLeft32(x, n)` on a 32-bit word held in a `Nat`. -/
def rotl32 (x n : Nat) : Nat := ((x <<< n) ||| (x >>> (32 - n))) % 2 ^ 32

/-- Big-endian bytes of a `w`-byte unsigned integer. -/
def bigEndian : Nat → Nat → List Nat
  | 0, _ => []
  | w + 1, x => (x >>> (8 * w)) % 256 :: bigEndian w x

/-- Big-endian 32-bit words of a byte sequence (four bytes per word). -/
def wordsOf : List Nat → List Nat
  | a :: b :: c :: d :: rest => (a <<< 24 ||| b <<< 16 ||| c <<< 8 ||| d) :: wordsOf rest
  | _ => []

/-- SHA-1 padding: `0x80`, zeros up to 56 mod 64, then the bit length as a
big-endian 64-bit integer. -/
def sha1Pad (msg : List Nat) : List Nat :=
  let len := msg.length
  let t := if len % 64 < 56 then 56 - len % 64 else 64 + 56 - len % 64
  msg ++ 0x80 :: List.replicate (t - 1) 0 ++ bigEndian 8 (len * 8 % 2 ^ 64)

/-- The message schedule: `n` more words appended to `w`, each the rotation by
one of `w[i-3] ^ w[i-8] ^ w[i-14] ^ w[i-16]`. -/
def schedule : Nat → List Nat → List Nat
  | 0, w => w
  | n + 1, w =>
    let i := w.length
    schedule n (w ++ [rotl32 (w.getD (i - 3) 0 ^^^ w.getD (i - 8) 0 ^^^ w.getD (i - 14) 0
      ^^^ w.getD (i - 16) 0) 1])

/-- The five 32-bit chaining words of SHA-1. -/
structure Sha1State where
  h0 : Nat
  h1 : Nat
  h2 : Nat
  h3 : Nat
  h4 : Nat
deriving DecidableEq

/-- Bitwise complement of a 32-bit word. -/
def not32 (x : Nat) : Nat := (2 ^ 32 - 1) ^^^ x

/-- One of the 80 rounds, for round index `i` and schedule word `wi`. -/
def sha1Round (i wi : Nat) (s : Sha1State) : Sha1State :=
  let f :=
    if i < 20 then (s.h1 &&& s.h2) ||| (not32 s.h1 &&& s.h3)
    else if i < 40 then s.h1 ^^^ s.h2 ^^^ s.h3
    else if i < 60 then ((s.h1 ||| s.h2) &&& s.h3) ||| (s.h1 &&& s.h2)
    else s.h1 ^^^ s.h2 ^^^ s.h3
  let k :=
    if i < 20 then 0x5A827999 else if i < 40 then 0x6ED9EBA1
    else if i < 60 then 0x8F1BBCDC else 0xCA62C1D6
  let t := (rotl32 s.h0 5 + f + s.h4 + wi + k) % 2 ^ 32
  ⟨t, s.h0, rotl32 s.h1 30, s.h2, s.h3⟩

/-- The rounds over the schedule words, starting at round index `i`. -/
def sha1Rounds : Nat → List Nat → Sha1State → Sha1State
  | _, [], s => s
  | i, wi :: ws, s => sha1Rounds (i + 1) ws (sha1Round i wi s)

/-- `blockGeneric` for one 64-byte chunk. -/
def sha1Block (h : Sha1State) (chunk : List Nat) : Sha1State :=
  let s := sha1Rounds 0 (schedule 64 (wordsOf chunk)) h
  ⟨(h.h0 + s.h0) % 2 ^ 32, (h.h1 + s.h1) % 2 ^ 32, (h.h2 + s.h2) % 2 ^ 32,
   (h.h3 + s.h3) % 2 ^ 32, (h.h4 + s.h4) % 2 ^ 32⟩

/-- `blockGeneric` over `n` consecutive chunks. -/
def sha1Blocks : Nat → List Nat → Sha1State → Sha1State
  | 0, _, h => h
  | n + 1, p, h => sha1Blocks n (p.drop 64) (sha1Block h (p.take 64))

/-- `sha1.Sum`: the 20-byte digest. -/
def sha1 (msg : Str) : Str :=
  let p := sha1Pad (msg.map Fin.val)
  let h := sha1Blocks (p.length / 64) p ⟨0x67452301, 0xEFCDAB89, 0x98BADCFE, 0x10325476, 0xC3D2E1F0⟩
  ([h.h0, h.h1, h.h2, h.h3, h.h4].flatMap (bigEndian 4)).map byteOfNat

/-- Byte-wise xor of a string with a constant. -/
def xorPad (k : Str) (c : Nat) : Str := k.map (fun b => byteOfNat (b.val ^^^ c))

/-- `hmac.New(sha1.New, key)` followed by `Write(msg)` and `Sum(nil)`. -/
def hmacSha1 (key msg : Str) : Str :=
  let k := if key.length > 64 then sha1 key else key
  let k := k ++ List.replicate (64 - k.length) 0
  sha1 (xorPad k 0x5c ++ sha1 (xorPad k 0x36 ++ msg))

/-- `encodeStd` of `encoding/base64`. -/
def encodeStd : Str := str "ABCDEFGHIJKLMNOPQRSTUVWXYZabcdefghijklmnopqrstuvwxyz0123456789+/"

/-- `encodeStd[i]`. -/
def b64Digit (i : Nat) : Fin 256 := encodeStd.getD i 0

/-- `base64.StdEncoding.EncodeToString`: three bytes give four digits; a
remainder of one or two bytes is padded with `=`. -/
def base64Std : Str → Str
  | a :: b :: c :: rest =>
    let v := a.val <<< 16 ||| b.val <<< 8 ||| c.val
    b64Digit (v >>> 18 &&& 63) :: b64Digit (v >>> 12 &&& 63) :: b64Digit (v >>> 6 &&& 63)
      :: b64Digit (v &&& 63) :: base64Std rest
  | [a, b] =>
    let v := a.val <<< 16 ||| b.val <<< 8
    [b64Digit (v >>> 18 &&& 63), b64Digit (v >>> 12 &&& 63), b64Digit (v >>> 6 &&& 63), 61]
  | [a] =>
    let v := a.val <<< 16
    [b64Digit (v >>> 18 &&& 63), b64Digit (v >>> 12 &&& 63), 61, 61]
  | [] => []

/-! ## Go maps -/

/-- A `map[string]string`, presented by an enumeration of its entries. -/
abbrev Params := List (Str × Str)

/-- The enumeration lists every key once, as a Go map does. -/
def IsMap (m : Params) : Prop := (m.map Prod.fst).Nodup

instance (m : Params) : Decidable (IsMap m) := inferInstanceAs (Decidable (List.Nodup _))

/-- `m[k]`: the value stored under `k`, the empty string when `k` is absent. -/
def mapGet (m : Params) (k : Str) : Str := (m.lookup k).getD []

/-- `m[k] = v`: overwrites the entry of `k`, or adds one. -/
def mapSet : Params → Str → Str → Params
  | [], k, v => [(k, v)]
  | e :: rest, k, v => if e.1 = k then (k, v) :: rest else e :: mapSet rest k v

/-- `delete(m, k)`. -/
def mapDelete (m : Params) (k : Str) : Params := m.filter (fun e => e.1 ≠ k)

/-! ## The provider -/

/-- The fields of `conf.AliyunProviderConfiguration` that the provider reads. -/
structure AliyunProviderConfiguration where
  AccessKeyId : Str
  AccessKeySecret : Str
  Endpoint : Str
  SignName : Str
  SmsUpExtendCode : Str

/-- `AliyunProvider`. -/
structure AliyunProvider where
  Config : AliyunProviderConfiguration

/-- `AliyunSmsResponse`. -/
structure AliyunSmsResponse where
  BizId : Str
  Code : Str
  Message : Str
  RequestId : Str

/-- An HTTP request as built by `SendSms`: method, URL, the `Content-Type`
header and the body. -/
structure Request where
  method : Str
  url : Str
  contentType : Str
  body : Str
deriving DecidableEq

/-- What the provider takes from outside `aliyun.go`: the package constant
`SMSProvider`, the `%q` verb of `fmt`, the two clock readings, `net/http` and
`encoding/json`.  Errors of the library calls are given by their text. -/
structure Env where
  /-- The package constant `SMSProvider`. -/
  SMSProvider : Str
  /-- The rendering of a string by the `%q` verb. -/
  quote : Str → Str
  /-- The reading `time.Now().UnixNano()`. -/
  unixNano : Int
  /-- The reading `time.Now().UTC().Format("2006-01-02T15:04:05Z")`. -/
  timestamp : Str
  /-- The error of `http.NewRequest(method, url, body)`, if any. -/
  newRequestErr : Str → Str → Option Str
  /-- The call `client.Do(req)`: an error, or the body of the response. -/
  clientDo : Request → Except Str Str
  /-- The call `json.NewDecoder(body).Decode(&smsResp)`. -/
  jsonDecode : Str → Except Str AliyunSmsResponse

/-- A returned `(string, error)` pair, with the requests handed to `client.Do`
on the way. -/
structure Outcome where
  id : Str
  err : Option Str
  sent : List Request
deriving DecidableEq

/-- The local `keys` of `generateSignature` before sorting: the keys of the
map other than "Signature", in enumeration order. -/
def signatureKeys (params : Params) : List Str :=
  (params.map Prod.fst).filter (fun k => k ≠ str "Signature")

/-- The local `keys` of `generateSignature` after `sort.Strings(keys)`. -/
def sortedKeys (params : Params) : List Str := sortStrings (signatureKeys params)

/-- The local `query` of `generateSignature`. -/
def query (params : Params) : List Str :=
  (sortedKeys params).map (fun k => QueryEscape k ++ str "=" ++ QueryEscape (mapGet params k))

/-- The local `queryString` of `generateSignature`: the canonical query string. -/
def queryString (params : Params) : Str := join (str "&") (query params)

/-- The local `stringToSign` of `generateSignature`. -/
def stringToSign (params : Params) : Str := str "POST&%2F&" ++ QueryEscape (queryString params)

/-- `generateSignature`. -/
def generateSignature (_p : AliyunProvider) (params : Params) (accessKeySecret : Str) : Str :=
  let key := accessKeySecret ++ str "&"
  base64Std (hmacSha1 key (stringToSign params))

/-- `strconv.FormatInt(i, 10)`. -/
def formatInt (i : Int) : Str := str (toString i)

/-- The local `params` of `SendSms` at the call of `generateSignature`. -/
def sendSmsParams (env : Env) (p : AliyunProvider) (phone templateCode otp : Str) : Params :=
  let templateParam := str "\x7b\"code\":\"" ++ otp ++ str "\"\x7d"
  let params : Params := [
    (str "Action", str "SendSms"),
    (str "Version", str "2017-05-25"),
    (str "AccessKeyId", p.Config.AccessKeyId),
    (str "Format", str "JSON"),
    (str "SignatureMethod", str "HMAC-SHA1"),
    (str "SignatureVersion", str "1.0"),
    (str "SignatureNonce", formatInt env.unixNano),
    (str "Timestamp", env.timestamp),
    (str "PhoneNumbers", phone),
    (str "SignName", p.Config.SignName),
    (str "TemplateCode", templateCode),
    (str "TemplateParam", templateParam)]
  if p.Config.SmsUpExtendCode ≠ [] then
    mapSet params (str "SmsUpExtendCode") p.Config.SmsUpExtendCode
  else params

/-- The local `params` of `SendSms` after `params["Signature"] = signature`:
the parameter set that is transmitted. -/
def sendSmsForm (env : Env) (p : AliyunProvider) (phone templateCode otp : Str) : Params :=
  let params := sendSmsParams env p phone templateCode otp
  let signature := generateSignature p params p.Config.AccessKeySecret
  mapSet params (str "Signature") signature

/-- `url.Values.Encode()` for values set with `Set` (one value per key): the
pairs `QueryEscape(k)=QueryEscape(v)` in ascending key order, joined by `&`. -/
def valuesEncode (data : Params) : Str :=
  join (str "&") ((sortStrings (data.map Prod.fst)).map
    (fun k => QueryEscape k ++ str "=" ++ QueryEscape (mapGet data k)))

/-- The request `SendSms` builds. -/
def sendSmsRequest (env : Env) (p : AliyunProvider) (phone templateCode otp : Str) : Request :=
  { method := str "POST"
    url := p.Config.Endpoint
    contentType := str "application/x-www-form-urlencoded"
    body := valuesEncode (sendSmsForm env p phone templateCode otp) }

/-- `SendSms`. -/
def SendSms (env : Env) (p : AliyunProvider) (phone templateCode otp : Str) : Outcome :=
  let req := sendSmsRequest env p phone templateCode otp
  match env.newRequestErr (str "POST") p.Config.Endpoint with
  | some e => ⟨[], some (str "failed to create request: " ++ e), []⟩
  | none =>
    match env.clientDo req with
    | .error e => ⟨[], some (str "failed to send SMS via Aliyun: " ++ e), [req]⟩
    | .ok body =>
      match env.jsonDecode body with
      | .error e => ⟨[], some (str "failed to decode response: " ++ e), [req]⟩
      | .ok smsResp =>
        if smsResp.Code ≠ str "OK" then
          ⟨[], some (str "aliyun SMS error: Code=" ++ smsResp.Code ++ str ", Message="
            ++ smsResp.Message), [req]⟩
        else ⟨smsResp.BizId, none, [req]⟩

/-- `SendMessage`. -/
def SendMessage (env : Env) (p : AliyunProvider) (phone message channel otp : Str) : Outcome :=
  if channel = env.SMSProvider then SendSms env p phone message otp
  else ⟨[], some (str "channel type " ++ env.quote channel
    ++ str " is not supported for Aliyun SMS service"), []⟩

/-- `VerifyOTP`. -/
def VerifyOTP (_p : AliyunProvider) (_phone _otp : Str) : Option Str :=
  some (str "OTP verification not supported by Aliyun SMS provider")

/-! ## Fixtures -/

/-- A provider with sign name "My App" and no extend code. -/
def sampleProvider : AliyunProvider :=
  ⟨⟨str "testid", str "testsecret", str "https://dysmsapi.aliyuncs.com", str "My App", []⟩⟩

/-- The vendor reply with `Code` "OK" and `BizId` "123". -/
def replyOK : Str := str "\x7b\"Code\":\"OK\",\"BizId\":\"123\"\x7d"

/-- The vendor reply with `Code` "isv.MOBILE_NUMBER_ILLEGAL" and `Message`
"bad number". -/
def replyIllegal : Str :=
  str "\x7b\"Code\":\"isv.MOBILE_NUMBER_ILLEGAL\",\"Message\":\"bad number\"\x7d"

/-- An environment whose vendor answers every request with `reply`, and whose
decoder knows the two replies above. -/
def sampleEnv (reply : Str) : Env where
  SMSProvider := str "sms"
  quote := fun s => str "\"" ++ s ++ str "\""
  unixNano := 1700000000123456789
  timestamp := str "2023-11-14T22:13:20Z"
  newRequestErr := fun _ _ => none
  clientDo := fun _ => .ok reply
  jsonDecode := fun body =>
    if body = replyOK then .ok ⟨str "123", str "OK", [], []⟩
    else if body = replyIllegal then .ok ⟨[], str "isv.MOBILE_NUMBER_ILLEGAL", str "bad number", []⟩
    else .error (str "invalid character")

/-! ## The order on strings and `sort.Strings` -/

theorem strLess_irrefl (a : Str) : strLess a a = false := by
  induction a with
  | nil => rfl
  | cons x xs ih => simp [strLess, ih]

theorem strLess_asymm : ∀ a b : Str, strLess a b = true → strLess b a = false
  | [], [], h => by simp [strLess] at h
  | [], _ :: _, _ => by simp [strLess]
  | _ :: _, [], h => by simp [strLess] at h
  | x :: xs, y :: ys, h => by
    rcases lt_trichotomy x y with hxy | hxy | hxy
    · simp [strLess, hxy, not_lt_of_gt hxy]
    · subst hxy
      simp only [strLess, lt_irrefl, if_false] at h ⊢
      exact strLess_asymm xs ys h
    · simp [strLess, hxy, not_lt_of_gt hxy] at h

theorem strLess_trichotomy : ∀ a b : Str, strLess a b = true ∨ a = b ∨ strLess b a = true
  | [], [] => by simp
  | [], _ :: _ => by simp [strLess]
  | _ :: _, [] => by simp [strLess]
  | x :: xs, y :: ys => by
    rcases lt_trichotomy x y with hxy | hxy | hxy
    · simp [strLess, hxy]
    · subst hxy
      simp only [strLess, lt_irrefl, if_false, List.cons.injEq, true_and]
      exact strLess_trichotomy xs ys
    · simp [strLess, hxy]

theorem strLess_trans : ∀ a b c : Str, strLess a b = true → strLess b c = true →
    strLess a c = true
  | [], [], _, h, _ => by simp [strLess] at h
  | [], _ :: _, [], _, h => by simp [strLess] at h
  | [], _ :: _, _ :: _, _, _ => by simp [strLess]
  | _ :: _, [], _, h, _ => by simp [strLess] at h
  | _ :: _, _ :: _, [], _, h => by simp [strLess] at h
  | x :: xs, y :: ys, z :: zs, h1, h2 => by
    simp only [strLess] at h1 h2 ⊢
    rcases lt_trichotomy x y with hxy | hxy | hxy
    · rcases lt_trichotomy y z with hyz | hyz | hyz
      · simp [lt_trans hxy hyz]
      · subst hyz; simp [hxy]
      · simp [hyz, not_lt_of_gt hyz] at h2
    · subst hxy
      rcases lt_trichotomy x z with hyz | hyz | hyz
      · simp [hyz]
      · subst hyz
        simp only [lt_irrefl, if_false] at h1 h2 ⊢
        exact strLess_trans xs ys zs h1 h2
      · simp [hyz, not_lt_of_gt hyz] at h2
    · simp [hxy, not_lt_of_gt hxy] at h1

theorem strLe_iff (a b : Str) : StrLe a b ↔ strLess a b = true ∨ a = b := by
  unfold StrLe
  constructor
  · intro h
    rcases strLess_trichotomy a b with h1 | h1 | h1
    · exact Or.inl h1
    · exact Or.inr h1
    · rw [h] at h1; cases h1
  · rintro (h | h)
    · exact strLess_asymm a b h
    · subst h; exact strLess_irrefl a

instance : IsTotal Str StrLe where
  total a b := by
    rcases strLess_trichotomy a b with h | h | h
    · exact Or.inl ((strLe_iff a b).2 (Or.inl h))
    · exact Or.inl ((strLe_iff a b).2 (Or.inr h))
    · exact Or.inr ((strLe_iff b a).2 (Or.inl h))

instance : IsTrans Str StrLe where
  trans a b c hab hbc := by
    rw [strLe_iff] at hab hbc ⊢
    rcases hab with hab | hab
    · rcases hbc with hbc | hbc
      · exact Or.inl (strLess_trans a b c hab hbc)
      · subst hbc; exact Or.inl hab
    · subst hab; exact hbc

instance : IsAntisymm Str StrLe where
  antisymm a b hab hba := by
    rw [strLe_iff] at hab
    rcases hab with hab | hab
    · unfold StrLe at hba; rw [hab] at hba; cases hba
    · exact hab

theorem sortStrings_perm (l : List Str) : (sortStrings l).Perm l :=
  List.perm_insertionSort StrLe l

theorem sortStrings_sorted (l : List Str) : (sortStrings l).Sorted StrLe :=
  List.sorted_insertionSort StrLe l

/-- Any ascending rearrangement of `l` is `sortStrings l`. -/
theorem sortStrings_unique (l l' : List Str) (hp : l'.Perm l) (hs : l'.Sorted StrLe) :
    l' = sortStrings l :=
  List.eq_of_perm_of_sorted (hp.trans (sortStrings_perm l).symm) hs (sortStrings_sorted l)

theorem sortStrings_congr {l l' : List Str} (hp : l.Perm l') : sortStrings l = sortStrings l' :=
  sortStrings_unique l' (sortStrings l) ((sortStrings_perm l).trans hp) (sortStrings_sorted l)

theorem mem_sortStrings {l : List Str} {k : Str} : k ∈ sortStrings l ↔ k ∈ l :=
  (sortStrings_perm l).mem_iff

theorem sortStrings_strict {l : List Str} (hl : l.Nodup) :
    (sortStrings l).Pairwise (fun a b => strLess a b = true) := by
  have hs : (sortStrings l).Pairwise StrLe := sortStrings_sorted l
  have hn : (sortStrings l).Pairwise (fun a b => a ≠ b) :=
    (sortStrings_perm l).nodup_iff.2 hl
  refine (hs.and hn).imp ?_
  rintro a b ⟨h1, h2⟩
  rcases (strLe_iff a b).1 h1 with h | h
  · exact h
  · exact absurd h h2

/-! ## `QueryEscape` -/

theorem str_amp : str "&" = [38] := by decide

theorem str_eq : str "=" = [61] := by decide

theorem QueryEscape_nil : QueryEscape [] = [] := rfl

theorem QueryEscape_cons (c : Fin 256) (s : Str) :
    QueryEscape (c :: s) = escapeByte c ++ QueryEscape s := by
  simp [QueryEscape]

theorem QueryEscape_append (s t : Str) :
    QueryEscape (s ++ t) = QueryEscape s ++ QueryEscape t := by
  simp [QueryEscape]

theorem upperhex_eq :
    upperhex = [48, 49, 50, 51, 52, 53, 54, 55, 56, 57, 65, 66, 67, 68, 69, 70] := by
  decide

theorem hexDigit_eq (i : Nat) :
    hexDigit i
      = ([48, 49, 50, 51, 52, 53, 54, 55, 56, 57, 65, 66, 67, 68, 69, 70] : Str).getD i 0 := by
  unfold hexDigit
  rw [upperhex_eq]

theorem hexDigit_inj (i j : Fin 16) (h : hexDigit i.val = hexDigit j.val) : i = j := by
  rw [hexDigit_eq, hexDigit_eq] at h
  revert i j
  decide

theorem hexDigit_unreserved (i : Fin 16) : shouldEscape (hexDigit i.val) = false := by
  rw [hexDigit_eq]
  revert i
  decide

set_option maxRecDepth 100000 in
theorem nibbles : ∀ c : Fin 256,
    c.val >>> 4 < 16 ∧ c.val &&& 15 < 16 ∧ 16 * (c.val >>> 4) + (c.val &&& 15) = c.val := by
  decide

theorem shouldEscape_false (c : Fin 256) (h : shouldEscape c = false) :
    c ≠ 32 ∧ c ≠ 37 ∧ c ≠ 43 ∧ c ≠ 38 ∧ c ≠ 61 := by
  refine ⟨?_, ?_, ?_, ?_, ?_⟩ <;> (rintro rfl; revert h; decide)

/-- The three shapes of `escapeByte`. -/
theorem escapeByte_cases (c : Fin 256) :
    (c = 32 ∧ escapeByte c = [43])
    ∨ (shouldEscape c = false ∧ escapeByte c = [c])
    ∨ (c ≠ 32 ∧ shouldEscape c = true ∧ ∃ i j : Fin 16, i.val = c.val >>> 4 ∧
        j.val = c.val &&& 15 ∧ escapeByte c = [37, hexDigit i.val, hexDigit j.val]) := by
  unfold escapeByte
  by_cases h32 : c = 32
  · exact Or.inl ⟨h32, by simp [h32]⟩
  · by_cases hs : shouldEscape c = true
    · refine Or.inr (Or.inr ⟨h32, hs, ⟨c.val >>> 4, (nibbles c).1⟩, ⟨c.val &&& 15, (nibbles c).2.1⟩,
        rfl, rfl, ?_⟩)
      simp [h32, hs]
    · simp only [Bool.not_eq_true] at hs
      exact Or.inr (Or.inl ⟨hs, by simp [h32, hs]⟩)

theorem escapeByte_bytes (c x : Fin 256) (hx : x ∈ escapeByte c) :
    x = 37 ∨ x = 43 ∨ shouldEscape x = false := by
  rcases escapeByte_cases c with ⟨_, h⟩ | ⟨hs, h⟩ | ⟨_, _, i, j, _, _, h⟩
  · rw [h] at hx; simp at hx; exact Or.inr (Or.inl hx)
  · rw [h] at hx; simp at hx; subst hx; exact Or.inr (Or.inr hs)
  · rw [h] at hx
    simp only [List.mem_cons, List.mem_singleton, List.not_mem_nil, or_false] at hx
    rcases hx with hx | hx | hx
    · exact Or.inl hx
    · subst hx; exact Or.inr (Or.inr (hexDigit_unreserved i))
    · subst hx; exact Or.inr (Or.inr (hexDigit_unreserved j))

theorem QueryEscape_bytes (s : Str) (x : Fin 256) (hx : x ∈ QueryEscape s) :
    x = 37 ∨ x = 43 ∨ shouldEscape x = false := by
  induction s with
  | nil => simp [QueryEscape] at hx
  | cons c s ih =>
    rw [QueryEscape_cons, List.mem_append] at hx
    rcases hx with hx | hx
    · exact escapeByte_bytes c x hx
    · exact ih hx

/-- The output of `QueryEscape` holds no space, `&` or `=`. -/
theorem QueryEscape_no_sep (s : Str) (x : Fin 256) (hx : x ∈ QueryEscape s) :
    x ≠ 32 ∧ x ≠ 38 ∧ x ≠ 61 := by
  rcases QueryEscape_bytes s x hx with h | h | h
  · subst h; decide
  · subst h; decide
  · exact ⟨(shouldEscape_false x h).1, (shouldEscape_false x h).2.2.2.1,
      (shouldEscape_false x h).2.2.2.2⟩

theorem byte_of_nibbles (a b : Fin 256) (h1 : a.val >>> 4 = b.val >>> 4)
    (h2 : a.val &&& 15 = b.val &&& 15) : a = b := by
  apply Fin.ext
  rw [← (nibbles a).2.2, ← (nibbles b).2.2, h1, h2]

/-- The per-byte code of `QueryEscape` is a prefix code. -/
theorem escapeByte_append_inj (a b : Fin 256) (s t : Str)
    (h : escapeByte a ++ s = escapeByte b ++ t) : a = b ∧ s = t := by
  rcases escapeByte_cases a with ⟨ha, ea⟩ | ⟨ha, ea⟩ | ⟨ha, sa, i, j, hi, hj, ea⟩ <;>
  rcases escapeByte_cases b with ⟨hb, eb⟩ | ⟨hb, eb⟩ | ⟨hb, sb, i', j', hi', hj', eb⟩ <;>
  rw [ea, eb] at h <;>
  simp only [List.cons_append, List.nil_append, List.cons.injEq] at h
  · exact ⟨ha.trans hb.symm, h.2⟩
  · exact absurd h.1.symm (shouldEscape_false b hb).2.2.1
  · exact absurd h.1 (by decide)
  · exact absurd h.1 (shouldEscape_false a ha).2.2.1
  · exact ⟨h.1, h.2⟩
  · exact absurd h.1 (shouldEscape_false a ha).2.1
  · exact absurd h.1 (by decide)
  · exact absurd h.1.symm (shouldEscape_false b hb).2.1
  · have e1 := hexDigit_inj i i' h.2.1
    have e2 := hexDigit_inj j j' h.2.2.1
    refine ⟨byte_of_nibbles a b ?_ ?_, h.2.2.2⟩
    · rw [← hi, ← hi', e1]
    · rw [← hj, ← hj', e2]

theorem escapeByte_ne_nil (c : Fin 256) : escapeByte c ≠ [] := by
  rcases escapeByte_cases c with ⟨_, h⟩ | ⟨_, h⟩ | ⟨_, _, _, _, _, _, h⟩ <;> rw [h] <;> simp

/-- `QueryEscape` is injective. -/
theorem QueryEscape_injective : ∀ s t : Str, QueryEscape s = QueryEscape t → s = t
  | [], [], _ => rfl
  | [], b :: t, h => by
    rw [QueryEscape_nil, QueryEscape_cons] at h
    exact absurd (List.append_eq_nil.1 h.symm).1 (escapeByte_ne_nil b)
  | a :: s, [], h => by
    rw [QueryEscape_nil, QueryEscape_cons] at h
    exact absurd (List.append_eq_nil.1 h).1 (escapeByte_ne_nil a)
  | a :: s, b :: t, h => by
    rw [QueryEscape_cons, QueryEscape_cons] at h
    obtain ⟨hab, hst⟩ := escapeByte_append_inj a b _ _ h
    rw [hab, QueryEscape_injective s t hst]

/-! ## `strings.Join` -/

theorem join_cons (sep x : Str) (xs : List Str) :
    join sep (x :: xs) = x ++ (if xs = [] then [] else sep ++ join sep xs) := by
  cases xs with
  | nil => simp [join]
  | cons y ys => simp [join]

/-- Two strings without `sep`, each followed by nothing or by `sep`, are cut
at the same place. -/
theorem split_at_sep (sep : Fin 256) : ∀ (x y r r' : Str), sep ∉ x → sep ∉ y →
    (r = [] ∨ ∃ t, r = sep :: t) → (r' = [] ∨ ∃ t, r' = sep :: t) →
    x ++ r = y ++ r' → x = y ∧ r = r'
  | [], [], _, _, _, _, _, _, h => ⟨rfl, h⟩
  | [], b :: y, r, r', _, hy, hr, _, h => by
    rcases hr with hr | ⟨t, hr⟩
    · subst hr; simp at h
    · subst hr
      simp only [List.nil_append, List.cons_append, List.cons.injEq] at h
      exact absurd (by simp [h.1]) hy
  | a :: x, [], r, r', hx, _, _, hr', h => by
    rcases hr' with hr' | ⟨t, hr'⟩
    · subst hr'; simp at h
    · subst hr'
      simp only [List.nil_append, List.cons_append, List.cons.injEq] at h
      exact absurd (by simp [h.1]) hx
  | a :: x, b :: y, r, r', hx, hy, hr, hr', h => by
    simp only [List.cons_append, List.cons.injEq] at h
    obtain ⟨h1, h2⟩ := split_at_sep sep x y r r' (fun hm => hx (List.mem_cons_of_mem _ hm))
      (fun hm => hy (List.mem_cons_of_mem _ hm)) hr hr' h.2
    exact ⟨by rw [h.1, h1], h2⟩

/-- `strings.Join` with a one-byte separator is injective on lists of
non-empty strings that do not hold the separator. -/
theorem join_injective (sep : Fin 256) : ∀ xs ys : List Str,
    (∀ x ∈ xs, sep ∉ x ∧ x ≠ []) → (∀ y ∈ ys, sep ∉ y ∧ y ≠ []) →
    join [sep] xs = join [sep] ys → xs = ys
  | [], [], _, _, _ => rfl
  | [], y :: ys, _, hy, h => by
    rw [join_cons] at h
    simp only [join] at h
    exact absurd (List.append_eq_nil.1 h.symm).1 (hy y (List.mem_cons_self _ _)).2
  | x :: xs, [], hx, _, h => by
    rw [join_cons] at h
    simp only [join] at h
    exact absurd (List.append_eq_nil.1 h).1 (hx x (List.mem_cons_self _ _)).2
  | x :: xs, y :: ys, hx, hy, h => by
    rw [join_cons, join_cons] at h
    have hxs : ∀ x' ∈ xs, sep ∉ x' ∧ x' ≠ [] := fun x' hm => hx x' (List.mem_cons_of_mem _ hm)
    have hys : ∀ y' ∈ ys, sep ∉ y' ∧ y' ≠ [] := fun y' hm => hy y' (List.mem_cons_of_mem _ hm)
    obtain ⟨h1, h2⟩ := split_at_sep sep x y _ _ (hx x (List.mem_cons_self _ _)).1
      (hy y (List.mem_cons_self _ _)).1
      (by by_cases e : xs = [] <;> simp [e]) (by by_cases e : ys = [] <;> simp [e]) h
    subst h1
    by_cases exs : xs = []
    · by_cases eys : ys = []
      · rw [exs, eys]
      · simp [exs, eys] at h2
    · by_cases eys : ys = []
      · simp [exs, eys] at h2
      · simp only [exs, eys, if_false, List.singleton_append, List.cons.injEq, true_and] at h2
        rw [join_injective sep xs ys hxs hys h2]

theorem QueryEscape_join (sep : Str) : ∀ xs : List Str,
    QueryEscape (join sep xs) = join (QueryEscape sep) (xs.map QueryEscape)
  | [] => rfl
  | [x] => rfl
  | x :: y :: rest => by
    simp only [join, List.map_cons, QueryEscape_append]
    rw [QueryEscape_join sep (y :: rest)]
    simp [join]

/-! ## Maps -/

theorem lookup_cons_eq (k a v : Str) (m : Params) :
    List.lookup a ((k, v) :: m) = if a = k then some v else List.lookup a m := by
  rw [List.lookup_cons]
  by_cases h : a = k
  · simp [h]
  · have hb : (a == k) = false := by simpa using h
    simp [h, hb]

theorem lookup_eq_none_iff_not_mem (m : Params) (k : Str) :
    m.lookup k = none ↔ k ∉ m.map Prod.fst := by
  induction m with
  | nil => simp
  | cons e m ih =>
    obtain ⟨k', v⟩ := e
    rw [lookup_cons_eq]
    by_cases h : k = k'
    · simp [h]
    · simp [h, ih]

theorem lookup_of_mem_keys (m : Params) (k : Str) (h : k ∈ m.map Prod.fst) :
    m.lookup k = some (mapGet m k) := by
  unfold mapGet
  cases hl : m.lookup k with
  | none => exact absurd h ((lookup_eq_none_iff_not_mem m k).1 hl)
  | some v => rfl

theorem lookup_of_mem (m : Params) (hm : IsMap m) (k v : Str) (h : (k, v) ∈ m) :
    m.lookup k = some v := by
  induction m with
  | nil => simp at h
  | cons e m ih =>
    obtain ⟨k', v'⟩ := e
    rw [lookup_cons_eq]
    have hm' : k' ∉ m.map Prod.fst ∧ IsMap m := by simpa [IsMap] using hm
    rcases List.mem_cons.1 h with h | h
    · simp only [Prod.mk.injEq] at h
      simp [h.1, h.2]
    · have hk : k ∈ m.map Prod.fst := List.mem_map.2 ⟨(k, v), h, rfl⟩
      have hne : k ≠ k' := fun e => hm'.1 (e ▸ hk)
      simp [hne, ih hm'.2 h]

theorem mem_of_lookup (m : Params) (k v : Str) (h : m.lookup k = some v) : (k, v) ∈ m := by
  induction m with
  | nil => simp at h
  | cons e m ih =>
    obtain ⟨k', v'⟩ := e
    rw [lookup_cons_eq] at h
    by_cases hk : k = k'
    · simp only [hk, if_true, Option.some.injEq] at h
      simp [hk, h]
    · simp only [hk, if_false] at h
      exact List.mem_cons_of_mem _ (ih h)

/-- A map's entry does not depend on the enumeration of the map. -/
theorem lookup_perm {m₁ m₂ : Params} (hm : IsMap m₁) (hp : m₁.Perm m₂) (k : Str) :
    m₁.lookup k = m₂.lookup k := by
  have hm₂ : IsMap m₂ := (hp.map Prod.fst).nodup_iff.1 hm
  cases h : m₁.lookup k with
  | none =>
    have : k ∉ m₂.map Prod.fst := fun hk =>
      (lookup_eq_none_iff_not_mem m₁ k).1 h ((hp.map Prod.fst).mem_iff.2 hk)
    exact ((lookup_eq_none_iff_not_mem m₂ k).2 this).symm
  | some v =>
    exact (lookup_of_mem m₂ hm₂ k v (hp.mem_iff.1 (mem_of_lookup m₁ k v h))).symm

theorem lookup_mapSet_ne (m : Params) (k v a : Str) (h : a ≠ k) :
    (mapSet m k v).lookup a = m.lookup a := by
  induction m with
  | nil => simp [mapSet, lookup_cons_eq, h]
  | cons e m ih =>
    obtain ⟨k', v'⟩ := e
    by_cases hk : k' = k
    · simp [mapSet, hk, lookup_cons_eq, h]
    · simp [mapSet, hk, lookup_cons_eq, ih]

theorem lookup_mapSet_self (m : Params) (k v : Str) : (mapSet m k v).lookup k = some v := by
  induction m with
  | nil => simp [mapSet, lookup_cons_eq]
  | cons e m ih =>
    obtain ⟨k', v'⟩ := e
    by_cases hk : k' = k
    · simp [mapSet, hk, lookup_cons_eq]
    · have hk' : k ≠ k' := fun e => hk e.symm
      simp [mapSet, hk, hk', lookup_cons_eq, ih]

theorem keys_mapSet (m : Params) (k v a : Str) :
    a ∈ (mapSet m k v).map Prod.fst ↔ a = k ∨ a ∈ m.map Prod.fst := by
  induction m with
  | nil => simp [mapSet]
  | cons e m ih =>
    obtain ⟨k', v'⟩ := e
    by_cases hk : k' = k
    · simp [mapSet, hk]
    · simp only [mapSet, hk, if_false, List.map_cons, List.mem_cons, ih]
      tauto

theorem isMap_mapSet (m : Params) (k v : Str) (hm : IsMap m) : IsMap (mapSet m k v) := by
  induction m with
  | nil => simp [mapSet, IsMap]
  | cons e m ih =>
    obtain ⟨k', v'⟩ := e
    have hm' : k' ∉ m.map Prod.fst ∧ IsMap m := by simpa [IsMap] using hm
    by_cases hk : k' = k
    · subst hk
      simpa [mapSet, IsMap] using hm
    · have h1 : k' ∉ (mapSet m k v).map Prod.fst := by
        rw [keys_mapSet]
        rintro (h | h)
        · exact hk h
        · exact hm'.1 h
      have h2 : IsMap (mapSet m k v) := ih hm'.2
      simp only [mapSet, hk, if_false, IsMap, List.map_cons, List.nodup_cons]
      exact ⟨h1, h2⟩

theorem filter_keys_mapSet (m : Params) (k v : Str) :
    ((mapSet m k v).map Prod.fst).filter (fun a => a ≠ k)
      = (m.map Prod.fst).filter (fun a => a ≠ k) := by
  induction m with
  | nil => simp [mapSet]
  | cons e m ih =>
    obtain ⟨k', v'⟩ := e
    by_cases hk : k' = k
    · simp [mapSet, hk]
    · simp only [mapSet, hk, if_false, List.map_cons, List.filter_cons, ih]

theorem lookup_mapDelete_ne (m : Params) (k a : Str) (h : a ≠ k) :
    (mapDelete m k).lookup a = m.lookup a := by
  induction m with
  | nil => simp [mapDelete]
  | cons e m ih =>
    obtain ⟨k', v'⟩ := e
    unfold mapDelete at ih ⊢
    have ih' : List.lookup a (List.filter (fun e => !decide (e.1 = k)) m) = List.lookup a m := by
      simpa using ih
    by_cases hk : k' = k
    · simp [List.filter_cons, hk, lookup_cons_eq, h, ih']
    · simp [List.filter_cons, hk, lookup_cons_eq, ih']

theorem filter_keys_mapDelete (m : Params) (k : Str) :
    ((mapDelete m k).map Prod.fst).filter (fun a => a ≠ k)
      = (m.map Prod.fst).filter (fun a => a ≠ k) := by
  induction m with
  | nil => simp [mapDelete]
  | cons e m ih =>
    obtain ⟨k', v'⟩ := e
    unfold mapDelete at ih ⊢
    have ih' : List.filter (fun a => !decide (a = k))
        (List.map Prod.fst (List.filter (fun e => !decide (e.1 = k)) m))
        = List.filter (fun a => !decide (a = k)) (List.map Prod.fst m) := by
      simpa using ih
    by_cases hk : k' = k
    · simp [List.filter_cons, hk, ih']
    · simp [List.filter_cons, hk, ih']

/-! ## The canonical query string -/

theorem mem_signatureKeys {m : Params} {k : Str} :
    k ∈ signatureKeys m ↔ k ∈ m.map Prod.fst ∧ k ≠ str "Signature" := by
  simp [signatureKeys, List.mem_filter]

theorem mem_sortedKeys {m : Params} {k : Str} :
    k ∈ sortedKeys m ↔ k ∈ m.map Prod.fst ∧ k ≠ str "Signature" := by
  unfold sortedKeys
  rw [mem_sortStrings, mem_signatureKeys]

/-- The canonical query string depends only on the non-"Signature" keys and
their values. -/
theorem query_congr {m₁ m₂ : Params} (hk : (signatureKeys m₁).Perm (signatureKeys m₂))
    (hv : ∀ k, k ≠ str "Signature" → m₁.lookup k = m₂.lookup k) : query m₁ = query m₂ := by
  unfold query sortedKeys
  rw [sortStrings_congr hk]
  apply List.map_congr_left
  intro k hmem
  have hne : k ≠ str "Signature" := (mem_signatureKeys.1 (mem_sortStrings.1 hmem)).2
  simp only [mapGet, hv k hne]

theorem mem_join (sep : Str) (x : Fin 256) : ∀ xs : List Str, x ∈ join sep xs →
    x ∈ sep ∨ ∃ p ∈ xs, x ∈ p
  | [], h => by simp [join] at h
  | [p], h => Or.inr ⟨p, List.mem_singleton_self p, by simpa [join] using h⟩
  | p :: q :: rest, h => by
    simp only [join, List.mem_append] at h
    rcases h with (h | h) | h
    · exact Or.inr ⟨p, List.mem_cons_self _ _, h⟩
    · exact Or.inl h
    · rcases mem_join sep x (q :: rest) h with h | ⟨r, hr, hx⟩
      · exact Or.inl h
      · exact Or.inr ⟨r, List.mem_cons_of_mem _ hr, hx⟩

/-- One `key=value` element of the canonical query string. -/
theorem mem_query {m : Params} {part : Str} (h : part ∈ query m) :
    ∃ k ∈ sortedKeys m, part = QueryEscape k ++ [61] ++ QueryEscape (mapGet m k) := by
  unfold query at h
  rw [str_eq] at h
  obtain ⟨k, hk, rfl⟩ := List.mem_map.1 h
  exact ⟨k, hk, rfl⟩

theorem query_part_ok {m : Params} {part : Str} (h : part ∈ query m) :
    (38 : Fin 256) ∉ part ∧ part ≠ [] := by
  obtain ⟨k, _, rfl⟩ := mem_query h
  constructor
  · intro hm
    simp only [List.mem_append, List.mem_singleton] at hm
    rcases hm with (hm | hm) | hm
    · exact (QueryEscape_no_sep _ _ hm).2.1 rfl
    · exact absurd hm (by decide)
    · exact (QueryEscape_no_sep _ _ hm).2.1 rfl
  · simp

theorem queryString_no_space (m : Params) : (32 : Fin 256) ∉ queryString m := by
  intro h
  unfold queryString at h
  rw [str_amp] at h
  rcases mem_join _ _ _ h with h | ⟨part, hp, hx⟩
  · exact absurd h (by decide)
  · obtain ⟨k, _, rfl⟩ := mem_query hp
    simp only [List.mem_append, List.mem_singleton] at hx
    rcases hx with (hx | hx) | hx
    · exact (QueryEscape_no_sep _ _ hx).1 rfl
    · exact absurd hx (by decide)
    · exact (QueryEscape_no_sep _ _ hx).1 rfl

theorem part_injective (k k' v v' : Str)
    (h : QueryEscape k ++ [61] ++ QueryEscape v = QueryEscape k' ++ [61] ++ QueryEscape v') :
    k = k' ∧ v = v' := by
  rw [List.append_assoc, List.append_assoc] at h
  obtain ⟨h1, h2⟩ := split_at_sep 61 (QueryEscape k) (QueryEscape k') _ _
    (fun hm => (QueryEscape_no_sep _ _ hm).2.2 rfl) (fun hm => (QueryEscape_no_sep _ _ hm).2.2 rfl)
    (Or.inr ⟨_, rfl⟩) (Or.inr ⟨_, rfl⟩) h
  simp only [List.singleton_append, List.cons.injEq, true_and] at h2
  exact ⟨QueryEscape_injective _ _ h1, QueryEscape_injective _ _ h2⟩

theorem map_part_injective (g₁ g₂ : Str → Str) : ∀ ks₁ ks₂ : List Str,
    ks₁.map (fun k => QueryEscape k ++ [61] ++ QueryEscape (g₁ k))
      = ks₂.map (fun k => QueryEscape k ++ [61] ++ QueryEscape (g₂ k)) →
    ks₁ = ks₂ ∧ ∀ k ∈ ks₁, g₁ k = g₂ k
  | [], [], _ => ⟨rfl, by simp⟩
  | [], _ :: _, h => by simp at h
  | _ :: _, [], h => by simp at h
  | a :: ks₁, b :: ks₂, h => by
    simp only [List.map_cons, List.cons.injEq] at h
    obtain ⟨hab, hv⟩ := part_injective _ _ _ _ h.1
    obtain ⟨hks, hrest⟩ := map_part_injective g₁ g₂ ks₁ ks₂ h.2
    subst hab
    refine ⟨by rw [hks], ?_⟩
    intro k hk
    rcases List.mem_cons.1 hk with hk | hk
    · rw [hk]; exact hv
    · exact hrest k hk

/-- The canonical query string determines the sorted keys and their values. -/
theorem queryString_determines {m₁ m₂ : Params} (h : queryString m₁ = queryString m₂) :
    sortedKeys m₁ = sortedKeys m₂ ∧ ∀ k ∈ sortedKeys m₁, mapGet m₁ k = mapGet m₂ k := by
  unfold queryString at h
  rw [str_amp] at h
  have hq : query m₁ = query m₂ :=
    join_injective 38 _ _ (fun _ hx => query_part_ok hx) (fun _ hy => query_part_ok hy) h
  unfold query at hq
  rw [str_eq] at hq
  exact map_part_injective (mapGet m₁) (mapGet m₂) _ _ hq

theorem escapeByte_twice (c : Fin 256) :
    QueryEscape (escapeByte c)
      = if c = 32 then str "%2B"
        else if shouldEscape c then
          str "%25" ++ [hexDigit (c.val >>> 4), hexDigit (c.val &&& 15)]
        else [c] := by
  have h37 : escapeByte 37 = str "%25" := by decide
  have h43 : escapeByte 43 = str "%2B" := by decide
  have hhex : ∀ i : Fin 16, escapeByte (hexDigit i.val) = [hexDigit i.val] := by
    intro i
    have hu := hexDigit_unreserved i
    have h32 := (shouldEscape_false _ hu).1
    simp [escapeByte, hu, h32]
  rcases escapeByte_cases c with ⟨hc, e⟩ | ⟨hs, e⟩ | ⟨hc, hs, i, j, hi, hj, e⟩
  · rw [e, if_pos hc]
    simp [QueryEscape, h43]
  · have h32 := (shouldEscape_false c hs).1
    rw [e, if_neg h32, hs]
    simp [QueryEscape, escapeByte, hs, h32]
  · rw [e, if_neg hc, hs, ← hi, ← hj]
    simp [QueryEscape, h37, hhex]

theorem escapeByte_no_plus (c x : Fin 256) (hc : c ≠ 32) (hx : x ∈ escapeByte c) :
    x = 37 ∨ shouldEscape x = false := by
  rcases escapeByte_cases c with ⟨h, _⟩ | ⟨hs, e⟩ | ⟨_, _, i, j, _, _, e⟩
  · exact absurd h hc
  · rw [e] at hx; simp at hx; subst hx; exact Or.inr hs
  · rw [e] at hx
    simp only [List.mem_cons, List.mem_singleton, List.not_mem_nil, or_false] at hx
    rcases hx with hx | hx | hx
    · exact Or.inl hx
    · subst hx; exact Or.inr (hexDigit_unreserved i)
    · subst hx; exact Or.inr (hexDigit_unreserved j)

theorem QueryEscape_no_plus (s : Str) (hs : (32 : Fin 256) ∉ s) (x : Fin 256)
    (hx : x ∈ QueryEscape s) : x = 37 ∨ shouldEscape x = false := by
  induction s with
  | nil => simp [QueryEscape] at hx
  | cons c s ih =>
    rw [QueryEscape_cons, List.mem_append] at hx
    rcases hx with hx | hx
    · exact escapeByte_no_plus c x (fun e => hs (by simp [e])) hx
    · exact ih (fun hm => hs (List.mem_cons_of_mem _ hm)) hx

/-! ## Theorems about `generateSignature` -/

/-- C1: `generateSignature` encodes a space in a key or value as `+`, not as
`%20`: the map with the single entry "SignName" ↦ "My App" has the canonical
query string `SignName=My+App`, which holds a `+` and differs from
`SignName=My%20App`; its string-to-sign carries the `+` as `%2B`. -/
theorem queryString_space_is_plus :
    queryString [(str "SignName", str "My App")] = str "SignName=My+App"
    ∧ (43 : Fin 256) ∈ queryString [(str "SignName", str "My App")]
    ∧ queryString [(str "SignName", str "My App")] ≠ str "SignName=My%20App"
    ∧ stringToSign [(str "SignName", str "My App")] = str "POST&%2F&SignName%3DMy%2BApp" := by
  decide

/-- Signatures computed by `generateSignature`, byte for byte: a short secret;
a 63-byte secret, whose key with the `&` fills the 64-byte HMAC block exactly;
a 64-byte secret, whose key is longer than the block and is hashed first; and
the parameter set of a whole `SendSms` call. -/
theorem generateSignature_vectors :
    generateSignature sampleProvider [(str "SignName", str "My App")] (str "testsecret")
      = str "o3szwCLO6fakAOQv9Qw4PQzO+p0="
    ∧ generateSignature sampleProvider [(str "B", str "2"), (str "A", str "1")]
        (List.replicate 63 107) = str "SsqO0VL3LTOYcwXPZzpR6c710XQ="
    ∧ generateSignature sampleProvider [(str "B", str "2"), (str "A", str "1")]
        (List.replicate 64 107) = str "GI9dA7YrUtGcReD3rTp9JswJ6rQ="
    ∧ generateSignature sampleProvider
        (sendSmsParams (sampleEnv replyOK) sampleProvider (str "+8613800000000") (str "SMS_1")
          (str "123456")) (str "testsecret") = str "J4OyNt8wS9HVRl5gIjJ57UhS8ZE=" := by
  refine ⟨?_, ?_, ?_, ?_⟩ <;> decide!

/-- C2: `generateSignature` returns the standard Base64 encoding of the
HMAC-SHA1, under the key `accessKeySecret` followed by `&`, of the
string-to-sign; the string-to-sign is `POST&%2F&` followed by the escaping of
the whole canonical query string, in which the separators `&` and `=` appear as
`%26` and `%3D`, every key and value is escaped twice, so that a `%` of the
first pass becomes `%25`, and only unreserved bytes and `%` occur.  The
returned value is fixed on concrete inputs: the map "SignName" ↦ "My App"
under the secret "testsecret" signs to `o3szwCLO6fakAOQv9Qw4PQzO+p0=`, the map
"B" ↦ "2", "A" ↦ "1" under 63 and under 64 bytes `k` (a key of exactly the
HMAC block size, and a longer one that HMAC hashes first) signs to
`SsqO0VL3LTOYcwXPZzpR6c710XQ=` and `GI9dA7YrUtGcReD3rTp9JswJ6rQ=`, and the
parameter set of a `SendSms` call signs to `J4OyNt8wS9HVRl5gIjJ57UhS8ZE=`. -/
theorem generateSignature_spec (p : AliyunProvider) (params : Params) (accessKeySecret : Str) :
    generateSignature p params accessKeySecret
      = base64Std (hmacSha1 (accessKeySecret ++ str "&") (stringToSign params))
    ∧ stringToSign params = str "POST&%2F&" ++ QueryEscape (queryString params)
    ∧ QueryEscape (queryString params)
      = join (str "%26") ((sortedKeys params).map (fun k =>
          QueryEscape (QueryEscape k) ++ str "%3D" ++ QueryEscape (QueryEscape (mapGet params k))))
    ∧ (∀ c : Fin 256, QueryEscape (escapeByte c)
        = if c = 32 then str "%2B"
          else if shouldEscape c then
            str "%25" ++ [hexDigit (c.val >>> 4), hexDigit (c.val &&& 15)]
          else [c])
    ∧ (∀ x ∈ QueryEscape (queryString params), x = 37 ∨ shouldEscape x = false)
    ∧ generateSignature p [(str "SignName", str "My App")] (str "testsecret")
        = str "o3szwCLO6fakAOQv9Qw4PQzO+p0="
    ∧ generateSignature p [(str "B", str "2"), (str "A", str "1")] (List.replicate 63 107)
        = str "SsqO0VL3LTOYcwXPZzpR6c710XQ="
    ∧ generateSignature p [(str "B", str "2"), (str "A", str "1")] (List.replicate 64 107)
        = str "GI9dA7YrUtGcReD3rTp9JswJ6rQ="
    ∧ generateSignature p
        (sendSmsParams (sampleEnv replyOK) sampleProvider (str "+8613800000000") (str "SMS_1")
          (str "123456")) (str "testsecret") = str "J4OyNt8wS9HVRl5gIjJ57UhS8ZE=" := by
  refine ⟨rfl, rfl, ?_, escapeByte_twice, QueryEscape_no_plus _ (queryString_no_space params),
    generateSignature_vectors⟩
  have h1 : QueryEscape (str "&") = str "%26" := by decide
  have h2 : QueryEscape (str "=") = str "%3D" := by decide
  unfold queryString query
  rw [QueryEscape_join, h1, List.map_map]
  congr 1
  apply List.map_congr_left
  intro k _
  simp only [Function.comp, QueryEscape_append, h2]

/-- C3: for a parameter map, the canonical query string is the `&`-join of
`QueryEscape(k)=QueryEscape(params[k])` over the sorted keys; the sorted keys
are strictly ascending in the byte-wise order of the raw keys; every key of the
map other than "Signature" occurs exactly once among them and nothing else
does; the value rendered for a key is the value the map holds; and the map
with "B" ↦ "2", "A" ↦ "1" gives `A=1&B=2`. -/
theorem queryString_canonical_order (params : Params) (h : IsMap params) :
    queryString params
      = join (str "&") ((sortedKeys params).map (fun k =>
          QueryEscape k ++ str "=" ++ QueryEscape (mapGet params k)))
    ∧ (sortedKeys params).Pairwise (fun a b => strLess a b = true)
    ∧ (∀ k, (sortedKeys params).countP (fun a => a = k)
        = if k ∈ params.map Prod.fst ∧ k ≠ str "Signature" then 1 else 0)
    ∧ (∀ k v, (k, v) ∈ params → mapGet params k = v)
    ∧ queryString [(str "B", str "2"), (str "A", str "1")] = str "A=1&B=2" := by
  have hnd : (signatureKeys params).Nodup := List.Nodup.filter _ h
  refine ⟨rfl, sortStrings_strict hnd, ?_, ?_, by decide⟩
  · intro k
    have hnd' : (sortedKeys params).Nodup := (sortStrings_perm _).nodup_iff.2 hnd
    by_cases hk : k ∈ params.map Prod.fst ∧ k ≠ str "Signature"
    · rw [if_pos hk]
      exact List.count_eq_one_of_mem hnd' (mem_sortedKeys.2 hk)
    · rw [if_neg hk]
      rw [List.countP_eq_zero]
      intro a ha hak
      exact hk (mem_sortedKeys.1 (of_decide_eq_true hak ▸ ha))
  · intro k v hkv
    simp [mapGet, lookup_of_mem params h k v hkv]

/-- Witness of C3 at the map with "B" ↦ "2", "A" ↦ "1". -/
theorem queryString_canonical_order_witness :
    IsMap [(str "B", str "2"), (str "A", str "1")]
    ∧ sortedKeys [(str "B", str "2"), (str "A", str "1")] = [str "A", str "B"]
    ∧ (sortedKeys [(str "B", str "2"), (str "A", str "1")]).Pairwise
        (fun a b => strLess a b = true) :=
  ⟨by decide, by decide,
    (queryString_canonical_order [(str "B", str "2"), (str "A", str "1")] (by decide)).2.1⟩

/-- C4: the signature does not depend on the "Signature" entry: setting it to
any string gives the same signature as deleting it. -/
theorem generateSignature_ignores_signature (p : AliyunProvider) (m : Params) (s : Str)
    (accessKeySecret : Str) :
    generateSignature p (mapSet m (str "Signature") s) accessKeySecret
      = generateSignature p (mapDelete m (str "Signature")) accessKeySecret := by
  have hq : query (mapSet m (str "Signature") s) = query (mapDelete m (str "Signature")) := by
    apply query_congr
    · unfold signatureKeys
      rw [filter_keys_mapSet, filter_keys_mapDelete]
    · intro k hk
      rw [lookup_mapSet_ne _ _ _ _ hk, lookup_mapDelete_ne _ _ _ hk]
  unfold generateSignature stringToSign queryString
  rw [hq]

/-- C5: two enumerations of the same parameter map (permutations of each
other) give the same signature under the same secret. -/
theorem generateSignature_deterministic (p : AliyunProvider) (m₁ m₂ : Params)
    (accessKeySecret : Str) (hm : IsMap m₁) (hp : m₁.Perm m₂) :
    generateSignature p m₁ accessKeySecret = generateSignature p m₂ accessKeySecret := by
  have hq : query m₁ = query m₂ :=
    query_congr ((hp.map Prod.fst).filter _) (fun k _ => lookup_perm hm hp k)
  unfold generateSignature stringToSign queryString
  rw [hq]

/-- Witness of C5 at the two enumerations of the map "B" ↦ "2", "A" ↦ "1". -/
theorem generateSignature_deterministic_witness :
    IsMap [(str "B", str "2"), (str "A", str "1")]
    ∧ [(str "B", str "2"), (str "A", str "1")].Perm [(str "A", str "1"), (str "B", str "2")]
    ∧ generateSignature ⟨⟨[], [], [], [], []⟩⟩ [(str "B", str "2"), (str "A", str "1")] (str "secret")
      = generateSignature ⟨⟨[], [], [], [], []⟩⟩ [(str "A", str "1"), (str "B", str "2")]
          (str "secret") :=
  ⟨by decide, List.Perm.swap _ _ _,
    generateSignature_deterministic _ _ _ _ (by decide) (List.Perm.swap _ _ _)⟩

/-- C10: two parameter maps that differ at a key other than "Signature" (the
key is in one and not the other, or holds different values) have different
canonical query strings and different strings-to-sign. -/
theorem queryString_unambiguous (m₁ m₂ : Params) (k : Str) (hk : k ≠ str "Signature")
    (hdiff : m₁.lookup k ≠ m₂.lookup k) :
    queryString m₁ ≠ queryString m₂ ∧ stringToSign m₁ ≠ stringToSign m₂ := by
  have key : queryString m₁ ≠ queryString m₂ := by
    intro h
    obtain ⟨hks, hv⟩ := queryString_determines h
    apply hdiff
    by_cases hmem : k ∈ sortedKeys m₁
    · have h1 := (mem_sortedKeys.1 hmem).1
      have h2 := (mem_sortedKeys.1 (hks ▸ hmem)).1
      rw [lookup_of_mem_keys m₁ k h1, lookup_of_mem_keys m₂ k h2, hv k hmem]
    · have h1 : k ∉ m₁.map Prod.fst := fun hm => hmem (mem_sortedKeys.2 ⟨hm, hk⟩)
      have h2 : k ∉ m₂.map Prod.fst := fun hm => hmem (hks ▸ mem_sortedKeys.2 ⟨hm, hk⟩)
      rw [(lookup_eq_none_iff_not_mem m₁ k).2 h1, (lookup_eq_none_iff_not_mem m₂ k).2 h2]
  refine ⟨key, ?_⟩
  intro h
  unfold stringToSign at h
  exact key (QueryEscape_injective _ _ (List.append_cancel_left h))

/-- Witness of C10: a value holding `&` and `=` against two separate entries. -/
theorem queryString_unambiguous_witness :
    str "a" ≠ str "Signature"
    ∧ List.lookup (str "a") [(str "a", str "1&b=2")]
        ≠ List.lookup (str "a") [(str "a", str "1"), (str "b", str "2")]
    ∧ queryString [(str "a", str "1&b=2")] ≠ queryString [(str "a", str "1"), (str "b", str "2")]
    ∧ stringToSign [(str "a", str "1&b=2")]
        ≠ stringToSign [(str "a", str "1"), (str "b", str "2")] :=
  ⟨by decide, by decide,
    queryString_unambiguous [(str "a", str "1&b=2")] [(str "a", str "1"), (str "b", str "2")]
      (str "a") (by decide) (by decide)⟩

/-! ## Theorems about `SendMessage`, `SendSms` and `VerifyOTP` -/

/-- C6: for a channel other than `SMSProvider`, `SendMessage` returns the
empty id with the "channel type ... is not supported" error and hands no
request to the HTTP client, whatever the phone, message and otp; for the
channel `SMSProvider` its result is that of `SendSms(phone, message, otp)`. -/
theorem SendMessage_dispatch (env : Env) (p : AliyunProvider) (phone message channel otp : Str) :
    (channel ≠ env.SMSProvider →
      (SendMessage env p phone message channel otp).id = []
      ∧ (SendMessage env p phone message channel otp).err
          = some (str "channel type " ++ env.quote channel
              ++ str " is not supported for Aliyun SMS service")
      ∧ (SendMessage env p phone message channel otp).err ≠ none
      ∧ (SendMessage env p phone message channel otp).sent = [])
    ∧ (channel = env.SMSProvider →
      SendMessage env p phone message channel otp = SendSms env p phone message otp) := by
  constructor
  · intro h
    simp [SendMessage, h]
  · intro h
    simp [SendMessage, h]

/-- Witness of C6 at the channels "whatsapp" and "sms". -/
theorem SendMessage_dispatch_witness :
    (str "whatsapp" ≠ (sampleEnv replyOK).SMSProvider
      ∧ (SendMessage (sampleEnv replyOK) sampleProvider (str "+8613800000000") (str "SMS_1")
          (str "whatsapp") (str "123456")).sent = [])
    ∧ (str "sms" = (sampleEnv replyOK).SMSProvider
      ∧ SendMessage (sampleEnv replyOK) sampleProvider (str "+8613800000000") (str "SMS_1")
          (str "sms") (str "123456")
        = SendSms (sampleEnv replyOK) sampleProvider (str "+8613800000000") (str "SMS_1")
          (str "123456")) :=
  ⟨⟨by decide, ((SendMessage_dispatch (sampleEnv replyOK) sampleProvider (str "+8613800000000")
      (str "SMS_1") (str "whatsapp") (str "123456")).1 (by decide)).2.2.2⟩,
   ⟨by decide, (SendMessage_dispatch (sampleEnv replyOK) sampleProvider (str "+8613800000000")
      (str "SMS_1") (str "sms") (str "123456")).2 (by decide)⟩⟩

/-- C7: when the request is created and sent and the reply decodes to
`smsResp`, `SendSms` returns a nil error exactly when `smsResp.Code` is "OK",
and then the id is `smsResp.BizId`; for any other code it returns the empty id
and the error "aliyun SMS error: Code=<Code>, Message=<Message>" carrying the
vendor's code and message unchanged. -/
theorem SendSms_response (env : Env) (p : AliyunProvider) (phone templateCode otp body : Str)
    (smsResp : AliyunSmsResponse)
    (hreq : env.newRequestErr (str "POST") p.Config.Endpoint = none)
    (hdo : env.clientDo (sendSmsRequest env p phone templateCode otp) = .ok body)
    (hdec : env.jsonDecode body = .ok smsResp) :
    ((SendSms env p phone templateCode otp).err = none ↔ smsResp.Code = str "OK")
    ∧ (smsResp.Code = str "OK" →
        (SendSms env p phone templateCode otp).id = smsResp.BizId
        ∧ (SendSms env p phone templateCode otp).err = none)
    ∧ (smsResp.Code ≠ str "OK" →
        (SendSms env p phone templateCode otp).id = []
        ∧ (SendSms env p phone templateCode otp).err
            = some (str "aliyun SMS error: Code=" ++ smsResp.Code ++ str ", Message="
                ++ smsResp.Message)) := by
  unfold SendSms
  simp only [hreq, hdo, hdec]
  by_cases hc : smsResp.Code = str "OK"
  · simp [hc]
  · simp [hc]

/-- Witness of C7 at the replies with `Code` "OK", `BizId` "123" and with
`Code` "isv.MOBILE_NUMBER_ILLEGAL", `Message` "bad number". -/
theorem SendSms_response_witness :
    (sampleEnv replyOK).jsonDecode replyOK = .ok ⟨str "123", str "OK", [], []⟩
    ∧ (sampleEnv replyIllegal).jsonDecode replyIllegal
        = .ok ⟨[], str "isv.MOBILE_NUMBER_ILLEGAL", str "bad number", []⟩
    ∧ ((SendSms (sampleEnv replyOK) sampleProvider (str "+8613800000000") (str "SMS_1")
        (str "123456")).id = str "123"
      ∧ (SendSms (sampleEnv replyOK) sampleProvider (str "+8613800000000") (str "SMS_1")
        (str "123456")).err = none)
    ∧ ((SendSms (sampleEnv replyIllegal) sampleProvider (str "+8613800000000") (str "SMS_1")
        (str "123456")).id = []
      ∧ (SendSms (sampleEnv replyIllegal) sampleProvider (str "+8613800000000") (str "SMS_1")
        (str "123456")).err
          = some (str "aliyun SMS error: Code=" ++ str "isv.MOBILE_NUMBER_ILLEGAL"
              ++ str ", Message=" ++ str "bad number")) :=
  ⟨rfl, rfl,
   (SendSms_response (sampleEnv replyOK) sampleProvider (str "+8613800000000") (str "SMS_1")
      (str "123456") replyOK ⟨str "123", str "OK", [], []⟩ rfl rfl rfl).2.1 rfl,
   (SendSms_response (sampleEnv replyIllegal) sampleProvider (str "+8613800000000") (str "SMS_1")
      (str "123456") replyIllegal ⟨[], str "isv.MOBILE_NUMBER_ILLEGAL", str "bad number", []⟩
      rfl rfl rfl).2.2 (by decide)⟩

/-- `SendSms` hands at most one request to the HTTP client: the one it built. -/
theorem SendSms_sent (env : Env) (p : AliyunProvider) (phone templateCode otp : Str) :
    (SendSms env p phone templateCode otp).sent = []
    ∨ (SendSms env p phone templateCode otp).sent = [sendSmsRequest env p phone templateCode otp] := by
  unfold SendSms
  cases h1 : env.newRequestErr (str "POST") p.Config.Endpoint with
  | some e => simp
  | none =>
    cases h2 : env.clientDo (sendSmsRequest env p phone templateCode otp) with
    | error e => simp [h2]
    | ok body =>
      cases h3 : env.jsonDecode body with
      | error e => simp [h2, h3]
      | ok smsResp =>
        by_cases hc : smsResp.Code = str "OK"
        · simp [h2, h3, hc]
        · simp [h2, h3, hc]

theorem sendSmsParams_of_empty (env : Env) (p : AliyunProvider) (phone templateCode otp : Str)
    (h : p.Config.SmsUpExtendCode = []) :
    str "SmsUpExtendCode" ∉ (sendSmsParams env p phone templateCode otp).map Prod.fst
    ∧ IsMap (sendSmsParams env p phone templateCode otp) := by
  unfold sendSmsParams IsMap
  simp only [h, ne_eq, not_true_eq_false, if_false, List.map_cons, List.map_nil]
  constructor <;> decide

theorem sendSmsParams_of_nonempty (env : Env) (p : AliyunProvider)
    (phone templateCode otp : Str) (h : p.Config.SmsUpExtendCode ≠ []) :
    (sendSmsParams env p phone templateCode otp).lookup (str "SmsUpExtendCode")
      = some p.Config.SmsUpExtendCode
    ∧ IsMap (sendSmsParams env p phone templateCode otp) := by
  unfold sendSmsParams
  simp only [h, ne_eq, not_false_eq_true, if_true]
  refine ⟨lookup_mapSet_self _ _ _, isMap_mapSet _ _ _ ?_⟩
  unfold IsMap
  simp only [List.map_cons, List.map_nil]
  decide

/-- C8: the parameter set `SendSms` signs (`sendSmsParams`) and the one it
transmits (`sendSmsForm`, the body of every request it sends) hold the key
"SmsUpExtendCode" exactly when the configured extend code is non-empty; the
value stored under it is then the configured one, so it is never the empty
string. -/
theorem sendSms_extend_code (env : Env) (p : AliyunProvider) (phone templateCode otp : Str) :
    (str "SmsUpExtendCode" ∈ (sendSmsParams env p phone templateCode otp).map Prod.fst
      ↔ p.Config.SmsUpExtendCode ≠ [])
    ∧ (str "SmsUpExtendCode" ∈ (sendSmsForm env p phone templateCode otp).map Prod.fst
      ↔ p.Config.SmsUpExtendCode ≠ [])
    ∧ (∀ v, (str "SmsUpExtendCode", v) ∈ sendSmsParams env p phone templateCode otp →
        v = p.Config.SmsUpExtendCode ∧ v ≠ [])
    ∧ (∀ v, (str "SmsUpExtendCode", v) ∈ sendSmsForm env p phone templateCode otp →
        v = p.Config.SmsUpExtendCode ∧ v ≠ [])
    ∧ IsMap (sendSmsParams env p phone templateCode otp)
    ∧ IsMap (sendSmsForm env p phone templateCode otp)
    ∧ (∀ req ∈ (SendSms env p phone templateCode otp).sent,
        req.body = valuesEncode (sendSmsForm env p phone templateCode otp)) := by
  have hne : str "SmsUpExtendCode" ≠ str "Signature" := by decide
  have hmap : IsMap (sendSmsParams env p phone templateCode otp) := by
    by_cases h : p.Config.SmsUpExtendCode = []
    · exact (sendSmsParams_of_empty env p phone templateCode otp h).2
    · exact (sendSmsParams_of_nonempty env p phone templateCode otp h).2
  have hkeys : str "SmsUpExtendCode" ∈ (sendSmsParams env p phone templateCode otp).map Prod.fst
      ↔ p.Config.SmsUpExtendCode ≠ [] := by
    constructor
    · intro hm h
      exact (sendSmsParams_of_empty env p phone templateCode otp h).1 hm
    · intro h
      have hl := (sendSmsParams_of_nonempty env p phone templateCode otp h).1
      by_contra hm
      rw [(lookup_eq_none_iff_not_mem _ _).2 hm] at hl
      cases hl
  have hval : ∀ v, (str "SmsUpExtendCode", v) ∈ sendSmsParams env p phone templateCode otp →
      v = p.Config.SmsUpExtendCode ∧ v ≠ [] := by
    intro v hv
    have hk : p.Config.SmsUpExtendCode ≠ [] := hkeys.1 (List.mem_map.2 ⟨_, hv, rfl⟩)
    have h1 := lookup_of_mem _ hmap _ _ hv
    rw [(sendSmsParams_of_nonempty env p phone templateCode otp hk).1] at h1
    have e : v = p.Config.SmsUpExtendCode := (Option.some.inj h1).symm
    exact ⟨e, e ▸ hk⟩
  have hform : IsMap (sendSmsForm env p phone templateCode otp) := isMap_mapSet _ _ _ hmap
  refine ⟨hkeys, ?_, hval, ?_, hmap, hform, ?_⟩
  · unfold sendSmsForm
    simp only [keys_mapSet, hne, false_or]
    exact hkeys
  · intro v hv
    apply hval v
    apply mem_of_lookup
    have h1 := lookup_of_mem _ hform _ _ hv
    unfold sendSmsForm at h1
    rw [lookup_mapSet_ne _ _ _ _ hne] at h1
    exact h1
  · intro req hreq
    rcases SendSms_sent env p phone templateCode otp with h | h
    · rw [h] at hreq; simp at hreq
    · rw [h, List.mem_singleton] at hreq
      rw [hreq]
      rfl

/-- Witness of C8 at a provider configured with the extend code "42". -/
theorem sendSms_extend_code_witness :
    (str "42" : Str) ≠ []
    ∧ List.lookup (str "SmsUpExtendCode")
        (sendSmsParams (sampleEnv replyOK) ⟨⟨[], [], [], [], str "42"⟩⟩ [] [] []) = some (str "42")
    ∧ str "SmsUpExtendCode"
        ∈ (sendSmsParams (sampleEnv replyOK) ⟨⟨[], [], [], [], str "42"⟩⟩ [] [] []).map Prod.fst
    ∧ str "SmsUpExtendCode"
        ∉ (sendSmsParams (sampleEnv replyOK) sampleProvider [] [] []).map Prod.fst :=
  ⟨by decide, by decide,
   (sendSms_extend_code (sampleEnv replyOK) ⟨⟨[], [], [], [], str "42"⟩⟩ [] [] []).1.2 (by decide),
   fun h => (sendSms_extend_code (sampleEnv replyOK) sampleProvider [] [] []).1.1 h rfl⟩

/-- C9: `VerifyOTP` returns a non-nil error for every provider, phone and
otp. -/
theorem VerifyOTP_unsupported (p : AliyunProvider) (phone otp : Str) :
    VerifyOTP p phone otp ≠ none
    ∧ VerifyOTP p phone otp
        = some (str "OTP verification not supported by Aliyun SMS provider") := by
  simp [VerifyOTP]

/-! ## Test vectors for the library functions -/

set_option maxRecDepth 100000 in
/-- The digest of "abc" (FIPS 180). -/
theorem sha1_abc :
    sha1 (str "abc") = [0xa9, 0x99, 0x3e, 0x36, 0x47, 0x06, 0x81, 0x6a, 0xba, 0x3e, 0x25, 0x71,
      0x78, 0x50, 0xc2, 0x6c, 0x9c, 0xd0, 0xd8, 0x9d] := by
  decide

set_option maxRecDepth 100000 in
/-- RFC 2202, test case 2. -/
theorem hmacSha1_rfc2202 :
    hmacSha1 (str "Jefe") (str "what do ya want for nothing?")
      = [0xef, 0xfc, 0xdf, 0x6a, 0xe5, 0xeb, 0x2f, 0xa2, 0xd2, 0x74, 0x16, 0xd5, 0xf1, 0x84,
        0xdf, 0x9c, 0x25, 0x9a, 0x7c, 0x79] := by
  decide

/-- RFC 4648, section 10. -/
theorem base64Std_vectors :
    base64Std (str "foobar") = str "Zm9vYmFy" ∧ base64Std (str "fooba") = str "Zm9vYmE="
    ∧ base64Std (str "foob") = str "Zm9vYg==" := by
  decide

theorem QueryEscape_vector :
    QueryEscape (str "a b+c%&=~*/-_.") = str "a+b%2Bc%25%26%3D~%2A%2F-_." := by
  decide

end Aliyun
